import Mathlib

/-!
Verification of the flux-security trust core: the sign envelope engine
(part_003, upstream src/lib/sign.c), the IMP exec pipeline (part_002,
upstream src/imp/exec.c), the cgroup reaper (src/imp/cgroup.c) and the
sign CLI (t/src/sign.c), shallowly embedded in Lean.

Byte strings (C char arrays and void buffers) are modelled as `List Nat`,
one element per byte.  ASCII codes are used directly: 46 is the dot
separator, 61 is the base64 padding byte.
-/

namespace FluxSec

/-! ## Base64, original (padded) variant

Modelled from the spec: header and payload pieces of the envelope use the
base64 original variant with padding, produced and consumed by the external
libsodium functions sodium_bin2base64 / sodium_base642bin.
-/

/-- ASCII byte of one base64 sextet (original-variant alphabet). -/
def b64char (s : Nat) : Nat :=
  if s < 26 then 65 + s
  else if s < 52 then 97 + (s - 26)
  else if s < 62 then 48 + (s - 52)
  else if s = 62 then 43
  else 47

/-- Decode one base64 alphabet byte; `none` on a byte outside the alphabet. -/
def b64inv (c : Nat) : Option Nat :=
  if 65 ≤ c ∧ c ≤ 90 then some (c - 65)
  else if 97 ≤ c ∧ c ≤ 122 then some (c - 97 + 26)
  else if 48 ≤ c ∧ c ≤ 57 then some (c - 48 + 52)
  else if c = 43 then some 62
  else if c = 47 then some 63
  else none

/-- Modelled from the spec: base64 encoding with padding (external
sodium_bin2base64, original variant). -/
def b64encode : List Nat → List Nat
  | [] => []
  | [a] => [b64char (a / 4), b64char (a % 4 * 16), 61, 61]
  | [a, b] => [b64char (a / 4), b64char (a % 4 * 16 + b / 16), b64char (b % 16 * 4), 61]
  | a :: b :: c :: rest =>
      b64char (a / 4) :: b64char (a % 4 * 16 + b / 16) ::
        b64char (b % 16 * 4 + c / 64) :: b64char (c % 64) :: b64encode rest

/-- Decode one 4-byte base64 group, honoring trailing padding. -/
def b64group (a b c d : Nat) : Option (List Nat) :=
  if c = 61 then
    if d = 61 then
      match b64inv a, b64inv b with
      | some x, some y => if y % 16 = 0 then some [x * 4 + y / 16] else none
      | _, _ => none
    else none
  else if d = 61 then
    match b64inv a, b64inv b, b64inv c with
    | some x, some y, some z =>
        if z % 4 = 0 then some [x * 4 + y / 16, y % 16 * 16 + z / 4] else none
    | _, _, _ => none
  else
    match b64inv a, b64inv b, b64inv c, b64inv d with
    | some x, some y, some z, some w =>
        some [x * 4 + y / 16, y % 16 * 16 + z / 4, z % 4 * 64 + w]
    | _, _, _, _ => none

/-- Modelled from the spec: base64 decoding with padding (external
sodium_base642bin, original variant); fails on malformed input. -/
def b64decode : List Nat → Option (List Nat)
  | [] => some []
  | a :: b :: c :: d :: rest =>
      match b64group a b c d, b64decode rest with
      | some g, some tail =>
          if rest = [] ∨ (c ≠ 61 ∧ d ≠ 61) then some (g ++ tail) else none
      | _, _ => none
  | _ => none

theorem b64inv_b64char : ∀ s : Nat, s < 64 → b64inv (b64char s) = some s := by
  decide

theorem b64char_ne_61 (s : Nat) : b64char s ≠ 61 := by
  unfold b64char
  split
  · omega
  split
  · omega
  split
  · omega
  split <;> omega

theorem b64char_ne_46 (s : Nat) : b64char s ≠ 46 := by
  unfold b64char
  split
  · omega
  split
  · omega
  split
  · omega
  split <;> omega

theorem dot_ne_b64char (s : Nat) : 46 ≠ b64char s :=
  fun h => b64char_ne_46 s h.symm

theorem b64encode_no_dot : ∀ l : List Nat, 46 ∉ b64encode l
  | [] => by simp [b64encode]
  | [a] => by simp [b64encode, dot_ne_b64char]
  | [a, b] => by simp [b64encode, dot_ne_b64char]
  | a :: b :: c :: rest => by
      have ih := b64encode_no_dot rest
      simp [b64encode, dot_ne_b64char, ih]

theorem b64decode_b64encode : ∀ l : List Nat, (∀ x ∈ l, x < 256) →
    b64decode (b64encode l) = some l
  | [], _ => rfl
  | [a], h => by
      have ha : a < 256 := h a (by simp)
      have h1 : a / 4 < 64 := by omega
      have h2 : a % 4 * 16 < 64 := by omega
      have h3 : a % 4 * 16 % 16 = 0 := by omega
      simp [b64encode, b64decode, b64group,
        b64inv_b64char _ h1, b64inv_b64char _ h2, h3]
      omega
  | [a, b], h => by
      have ha : a < 256 := h a (by simp)
      have hb : b < 256 := h b (by simp)
      have h1 : a / 4 < 64 := by omega
      have h2 : a % 4 * 16 + b / 16 < 64 := by omega
      have h3 : b % 16 * 4 < 64 := by omega
      have h4 : b % 16 * 4 % 4 = 0 := by omega
      simp [b64encode, b64decode, b64group, b64char_ne_61,
        b64inv_b64char _ h1, b64inv_b64char _ h2, b64inv_b64char _ h3, h4]
      constructor
      · omega
      · omega
  | a :: b :: c :: rest, h => by
      have ha : a < 256 := h a (by simp)
      have hb : b < 256 := h b (by simp)
      have hc : c < 256 := h c (by simp)
      have ih := b64decode_b64encode rest (fun x hx => h x (by simp [hx]))
      have h1 : a / 4 < 64 := by omega
      have h2 : a % 4 * 16 + b / 16 < 64 := by omega
      have h3 : b % 16 * 4 + c / 64 < 64 := by omega
      have h4 : c % 64 < 64 := by omega
      simp [b64encode, b64decode, b64group, b64char_ne_61, ih,
        b64inv_b64char _ h1, b64inv_b64char _ h2, b64inv_b64char _ h3,
        b64inv_b64char _ h4]
      refine ⟨by omega, by omega, by omega⟩

/-! ## Key/value bundle codec

Modelled from the spec: the security header is a key/value bundle produced
by an external serializer (libutil kv, out of scope); the spec requires only
that both ends agree on the serializer's rules.  Entries are serialized as
KEY NUL TYPE VALUE NUL, integers in signed decimal.
-/

/-- Value of one header entry: 64-bit integer or byte string. -/
inductive KvVal where
  | i64 (x : Int)
  | str (s : List Nat)
deriving DecidableEq

/-- Security header: ordered key/value entries. -/
abbrev Header := List (List Nat × KvVal)

/-- Little-endian decimal digits of a natural number, by fuelled structural
recursion so that concrete values evaluate in the kernel (empty for 0). -/
def natDigitsGo : Nat → Nat → List Nat
  | _, 0 => []
  | 0, _ + 1 => []
  | f + 1, n + 1 => (n + 1) % 10 :: natDigitsGo f ((n + 1) / 10)

/-- Little-endian decimal digits of a natural number. -/
def natDigits (n : Nat) : List Nat := natDigitsGo n n

/-- Numeric value of a little-endian digit list. -/
def digitsVal : List Nat → Nat
  | [] => 0
  | d :: t => d + 10 * digitsVal t

theorem natDigitsGo_spec : ∀ f n, n ≤ f →
    digitsVal (natDigitsGo f n) = n ∧ ∀ d ∈ natDigitsGo f n, d < 10 := by
  intro f
  induction f with
  | zero =>
      intro n hn
      have : n = 0 := by omega
      subst this
      simp [natDigitsGo, digitsVal]
  | succ f ih =>
      intro n hn
      match n with
      | 0 => simp [natDigitsGo, digitsVal]
      | m + 1 =>
          have h1 : (m + 1) / 10 ≤ f := by omega
          obtain ⟨hv, hd⟩ := ih ((m + 1) / 10) h1
          constructor
          · simp only [natDigitsGo, digitsVal, hv]
            omega
          · intro d hdm
            simp only [natDigitsGo] at hdm
            rcases List.mem_cons.mp hdm with rfl | hdm
            · omega
            · exact hd d hdm

theorem digitsVal_natDigits (n : Nat) : digitsVal (natDigits n) = n :=
  (natDigitsGo_spec n n le_rfl).1

theorem natDigits_lt (n : Nat) : ∀ d ∈ natDigits n, d < 10 :=
  (natDigitsGo_spec n n le_rfl).2

/-- Decimal digits of a natural number, as ASCII bytes (least significant
digit first; empty for 0). -/
def encNat (n : Nat) : List Nat := (natDigits n).map (· + 48)

/-- Signed decimal encoding of an integer: explicit sign byte, then digits. -/
def encInt (x : Int) : List Nat :=
  if 0 ≤ x then 43 :: encNat x.toNat else 45 :: encNat (-x).toNat

/-- Parse ASCII decimal digits back to a natural number. -/
def decNat (l : List Nat) : Option Nat :=
  if l.all (fun d => decide (48 ≤ d ∧ d < 58)) then
    some (digitsVal (l.map (· - 48)))
  else none

/-- Parse a signed decimal integer. -/
def decInt (l : List Nat) : Option Int :=
  match l with
  | 43 :: ds => (decNat ds).map (fun n => (n : Int))
  | 45 :: ds => (decNat ds).map (fun n => -(n : Int))
  | _ => none

/-- Serialized bytes of one value: a type tag byte then the value bytes. -/
def kvValEnc : KvVal → List Nat
  | .i64 x => 105 :: encInt x
  | .str s => 115 :: s

/-- Parse one serialized value. -/
def kvValDec (l : List Nat) : Option KvVal :=
  match l with
  | 105 :: ds => (decInt ds).map .i64
  | 115 :: s => some (.str s)
  | _ => none

/-- Serialize a header: KEY NUL TYPE VALUE NUL per entry. -/
def kv_encode : Header → List Nat
  | [] => []
  | (k, v) :: t => k ++ [0] ++ kvValEnc v ++ [0] ++ kv_encode t

/-- Fuelled parsing loop for `kv_decode`. -/
def kv_decode_go : Nat → List Nat → Option Header
  | _, [] => some []
  | 0, _ :: _ => none
  | fuel + 1, b :: l =>
      let k := (b :: l).takeWhile (fun x => x != 0)
      match (b :: l).dropWhile (fun x => x != 0) with
      | 0 :: rest =>
          let vb := rest.takeWhile (fun x => x != 0)
          match rest.dropWhile (fun x => x != 0) with
          | 0 :: rest2 =>
              match kvValDec vb, kv_decode_go fuel rest2 with
              | some v, some t => some ((k, v) :: t)
              | _, _ => none
          | _ => none
      | _ => none

/-- Parse a serialized header; fails on malformed input. -/
def kv_decode (l : List Nat) : Option Header := kv_decode_go l.length l

/-- Well-formed key: printable bytes, no NUL. -/
def keyOk (k : List Nat) : Prop := ∀ b ∈ k, b ≠ 0 ∧ b < 256

/-- Well-formed value: string values carry no NUL and only bytes. -/
def valOk : KvVal → Prop
  | .i64 _ => True
  | .str s => ∀ b ∈ s, b ≠ 0 ∧ b < 256

/-- Well-formed header: every entry has a well-formed key and value. -/
def headerOk (h : Header) : Prop := ∀ e ∈ h, keyOk e.1 ∧ valOk e.2

instance (k : List Nat) : Decidable (keyOk k) :=
  inferInstanceAs (Decidable (∀ b ∈ k, b ≠ 0 ∧ b < 256))

instance (v : KvVal) : Decidable (valOk v) :=
  match v with
  | .i64 _ => isTrue trivial
  | .str s => inferInstanceAs (Decidable (∀ b ∈ s, b ≠ 0 ∧ b < 256))

instance (h : Header) : Decidable (headerOk h) :=
  inferInstanceAs (Decidable (∀ e ∈ h, keyOk e.1 ∧ valOk e.2))

theorem decNat_encNat (n : Nat) : decNat (encNat n) = some n := by
  have hd := natDigits_lt n
  have hall : (encNat n).all (fun d => decide (48 ≤ d ∧ d < 58)) = true := by
    simp only [encNat, List.all_map, List.all_eq_true]
    intro d hdm
    have := hd d hdm
    simp only [Function.comp_apply, decide_eq_true_eq]
    omega
  simp only [decNat, hall, if_pos]
  simp only [encNat, List.map_map]
  have : ((fun d => d - 48) ∘ (fun d => d + 48)) = id := by
    funext d; simp
  rw [this, List.map_id, digitsVal_natDigits]

theorem decInt_encInt (x : Int) : decInt (encInt x) = some x := by
  by_cases hx : 0 ≤ x
  · have h2 : (x.toNat : Int) = x := Int.toNat_of_nonneg hx
    simp [encInt, if_pos hx, decInt, decNat_encNat, h2]
  · have h2 : ((-x).toNat : Int) = -x := Int.toNat_of_nonneg (by omega)
    simp [encInt, if_neg hx, decInt, decNat_encNat, h2]

theorem kvValDec_kvValEnc (v : KvVal) : kvValDec (kvValEnc v) = some v := by
  cases v with
  | i64 x => simp [kvValEnc, kvValDec, decInt_encInt]
  | str s => simp [kvValEnc, kvValDec]

theorem encNat_bytes (n : Nat) : ∀ b ∈ encNat n, b ≠ 0 ∧ b < 256 := by
  intro b hb
  simp only [encNat, List.mem_map] at hb
  obtain ⟨d, hd, rfl⟩ := hb
  have := natDigits_lt n d hd
  omega

theorem encInt_bytes (x : Int) : ∀ b ∈ encInt x, b ≠ 0 ∧ b < 256 := by
  intro b hb
  simp only [encInt] at hb
  split at hb <;> rcases List.mem_cons.mp hb with rfl | hb
  · omega
  · exact encNat_bytes _ b hb
  · omega
  · exact encNat_bytes _ b hb

theorem kvValEnc_bytes (v : KvVal) (hv : valOk v) :
    ∀ b ∈ kvValEnc v, b ≠ 0 ∧ b < 256 := by
  intro b hb
  cases v with
  | i64 x =>
      rcases List.mem_cons.mp hb with rfl | hb
      · omega
      · exact encInt_bytes x b hb
  | str s =>
      rcases List.mem_cons.mp hb with rfl | hb
      · omega
      · exact hv b hb

theorem takeWhile_no_nul (xs ys : List Nat) (h : ∀ x ∈ xs, x ≠ 0) :
    (xs ++ 0 :: ys).takeWhile (fun x => x != 0) = xs := by
  induction xs with
  | nil => simp
  | cons a t ih =>
      have ha : a ≠ 0 := h a (by simp)
      simp only [List.cons_append, List.takeWhile_cons]
      have : (a != 0) = true := by simpa using ha
      rw [this]
      simp only [if_true]
      rw [ih (fun x hx => h x (by simp [hx]))]

theorem dropWhile_no_nul (xs ys : List Nat) (h : ∀ x ∈ xs, x ≠ 0) :
    (xs ++ 0 :: ys).dropWhile (fun x => x != 0) = 0 :: ys := by
  induction xs with
  | nil => simp
  | cons a t ih =>
      have ha : a ≠ 0 := h a (by simp)
      simp only [List.cons_append, List.dropWhile_cons]
      have : (a != 0) = true := by simpa using ha
      rw [this]
      simp only [if_true]
      exact ih (fun x hx => h x (by simp [hx]))

theorem kv_encode_length (h : Header) : h.length ≤ (kv_encode h).length := by
  induction h with
  | nil => simp [kv_encode]
  | cons e t ih =>
      obtain ⟨k, v⟩ := e
      simp only [kv_encode, List.length_append, List.length_cons]
      simp only [List.length_cons] at *
      omega

theorem kv_decode_go_encode (h : Header) (hwf : headerOk h) :
    ∀ fuel, h.length ≤ fuel → kv_decode_go fuel (kv_encode h) = some h := by
  induction h with
  | nil => intro fuel _; cases fuel <;> rfl
  | cons e t ih =>
      obtain ⟨k, v⟩ := e
      intro fuel hfuel
      have hk : ∀ x ∈ k, x ≠ 0 := fun x hx => ((hwf (k, v) (by simp)).1 x hx).1
      have hv : ∀ x ∈ kvValEnc v, x ≠ 0 := fun x hx =>
        (kvValEnc_bytes v (hwf (k, v) (by simp)).2 x hx).1
      obtain ⟨f, rfl⟩ : ∃ f, fuel = f + 1 := by
        cases fuel with
        | zero => simp at hfuel
        | succ f => exact ⟨f, rfl⟩
      have henc : kv_encode ((k, v) :: t) =
          k ++ 0 :: (kvValEnc v ++ 0 :: kv_encode t) := by
        simp [kv_encode]
      obtain ⟨b, l, hbl⟩ : ∃ b l, kv_encode ((k, v) :: t) = b :: l := by
        rw [henc]
        cases k with
        | nil => exact ⟨0, _, rfl⟩
        | cons a t2 => exact ⟨a, _, rfl⟩
      rw [hbl]
      have h1 : (b :: l).takeWhile (fun x => x != 0) = k := by
        rw [← hbl, henc]; exact takeWhile_no_nul k _ hk
      have h2 : (b :: l).dropWhile (fun x => x != 0) =
          0 :: (kvValEnc v ++ 0 :: kv_encode t) := by
        rw [← hbl, henc]; exact dropWhile_no_nul k _ hk
      have h3 : (kvValEnc v ++ 0 :: kv_encode t).takeWhile (fun x => x != 0) =
          kvValEnc v := takeWhile_no_nul _ _ hv
      have h4 : (kvValEnc v ++ 0 :: kv_encode t).dropWhile (fun x => x != 0) =
          0 :: kv_encode t := dropWhile_no_nul _ _ hv
      have ht : kv_decode_go f (kv_encode t) = some t := by
        apply ih (fun e he => hwf e (by simp [he]))
        simp only [List.length_cons] at hfuel
        omega
      simp only [kv_decode_go, h1, h2, h3, h4, kvValDec_kvValEnc, ht]

theorem kv_decode_kv_encode (h : Header) (hwf : headerOk h) :
    kv_decode (kv_encode h) = some h :=
  kv_decode_go_encode h hwf _ (kv_encode_length h)

theorem kv_encode_bytes (h : Header) (hwf : headerOk h) :
    ∀ b ∈ kv_encode h, b < 256 := by
  induction h with
  | nil => simp [kv_encode]
  | cons e t ih =>
      obtain ⟨k, v⟩ := e
      intro b hb
      simp only [kv_encode, List.append_assoc, List.mem_append,
        List.mem_cons, List.mem_singleton] at hb
      rcases hb with hb | hb | hb | hb | hb <;>
        first
          | exact ((hwf (k, v) (by simp)).1 b hb).2
          | exact (kvValEnc_bytes v (hwf (k, v) (by simp)).2 b hb).2
          | exact ih (fun e he => hwf e (by simp [he])) b hb
          | omega
          | (simp at hb; omega)

/-- First-match lookup of a key in a header (external kv_get, key part). -/
def kv_lookup : Header → List Nat → Option KvVal
  | [], _ => none
  | (k, v) :: t, key => if k = key then some v else kv_lookup t key

/-- Modelled from the spec: kv_get with KV_INT64, `none` when the key is
missing or not an integer. -/
def kv_get_i64 (h : Header) (key : List Nat) : Option Int :=
  match kv_lookup h key with
  | some (.i64 x) => some x
  | _ => none

/-- Modelled from the spec: kv_get with KV_STRING, `none` when the key is
missing or not a string. -/
def kv_get_str (h : Header) (key : List Nat) : Option (List Nat) :=
  match kv_lookup h key with
  | some (.str s) => some s
  | _ => none

/-- ASCII bytes of "version". -/
def verKey : List Nat := [118, 101, 114, 115, 105, 111, 110]

/-- ASCII bytes of "mechanism". -/
def mechKey : List Nat := [109, 101, 99, 104, 97, 110, 105, 115, 109]

/-- ASCII bytes of "userid". -/
def uidKey : List Nat := [117, 115, 101, 114, 105, 100]

/-- ASCII bytes of "none". -/
def noneName : List Nat := [110, 111, 110, 101]

/-- ASCII bytes of "munge". -/
def mungeName : List Nat := [109, 117, 110, 103, 101]

/-- ASCII bytes of "curve". -/
def curveName : List Nat := [99, 117, 114, 118, 101]

/-! ## Mechanism registry and sign configuration -/

/-- Validated [sign] configuration subtree (cf_t values, typed). -/
structure SignConfig where
  maxTtl : Int
  defaultType : List Nat
  allowedTypes : List (List Nat)

/-- Modelled from the spec: the capability set of a signing back-end (the
sign_mech struct; the concrete mechanisms none/munge/curve are external to
the provided sources).  `initOk` abstracts the optional init hook, `prep`
adds mechanism data to the header, `sign` produces the signature for the
HEADER.PAYLOAD bytes, `verify` checks header, signed bytes and signature. -/
structure Mech where
  name : List Nat
  initOk : SignConfig → Bool
  prep : Header → Int → Option Header
  sign : List Nat → Int → Option (List Nat)
  verify : Header → List Nat → List Nat → Int → Bool

/-- Translation of lookup_mech (part_003 lines 47-56): find a registered
mechanism by name; the registry is a parameter because the mechanism
implementations are external. -/
def lookup_mech (reg : List Mech) (name : List Nat) : Option Mech :=
  reg.find? (fun m => m.name == name)

theorem lookup_mech_name (reg : List Mech) (n : List Nat) (m : Mech)
    (h : lookup_mech reg n = some m) : m.name = n := by
  have := List.find?_some h
  simpa using this

/-- Translation of validate_mech_array (part_003 lines 84-108): every
allowed-types element must name a known mechanism and the array must be
non-empty (elements are strings by the typing of the model). -/
def validate_mech_array (reg : List Mech) (mechs : List (List Nat)) : Bool :=
  mechs.all (fun n => (lookup_mech reg n).isSome) && !mechs.isEmpty

/-- Translation of the configuration validation in sign_create (part_003
lines 110-146): max-ttl must be positive, with -100 allowed for testing;
allowed-types must validate; default-type must name a known mechanism. -/
def sign_create_ok (reg : List Mech) (cfg : SignConfig) : Bool :=
  if cfg.maxTtl ≤ 0 ∧ cfg.maxTtl ≠ -100 then false
  else if !(validate_mech_array reg cfg.allowedTypes) then false
  else if !(lookup_mech reg cfg.defaultType).isSome then false
  else true

/-- Modelled from the spec: the NOVERIFY flag bit (sign.h is external). -/
def FLUX_SIGN_NOVERIFY : Int := 1

/-- Error outcome of a sign-engine call, abstracting errno and last_error. -/
inductive SignErr where
  | einval
  | einit
  | emech
  | everify
deriving DecidableEq

/-! ## Wrap -/

/-- Generic security header built by flux_sign_wrap_as (part_003 lines
267-276): version, mechanism, userid, in insertion order. -/
def wrap_header (mechName : List Nat) (userid : Int) : Header :=
  [(verKey, .i64 1), (mechKey, .str mechName), (uidKey, .i64 userid)]

/-- Translation of flux_sign_wrap_as (part_003 lines 236-305).  The payload
is a byte list, so the C checks paysz < 0 and pay == NULL with paysz > 0
have no counterpart; a NULL payload with paysz == 0 is the empty list. -/
def flux_sign_wrap_as (reg : List Mech) (cfg : SignConfig) (userid : Int)
    (pay : List Nat) (mech_type : Option (List Nat)) (flags : Int) :
    Except SignErr (List Nat) :=
  if userid < 0 ∨ flags ≠ 0 then .error .einval
  else if !(sign_create_ok reg cfg) then .error .einit
  else
    let mname := mech_type.getD cfg.defaultType
    match lookup_mech reg mname with
    | none => .error .einval
    | some mech =>
      if !(mech.initOk cfg) then .error .emech
      else
        match mech.prep (wrap_header mech.name userid) flags with
        | none => .error .emech
        | some hdr =>
          let buf := b64encode (kv_encode hdr) ++ 46 :: b64encode pay
          match mech.sign buf flags with
          | none => .error .emech
          | some sig => .ok (buf ++ 46 :: sig)

/-- Translation of flux_sign_wrap (part_003 lines 307-312): wrap_as with the
caller's real uid (uid_t, hence a Nat). -/
def flux_sign_wrap (reg : List Mech) (cfg : SignConfig) (uid : Nat)
    (pay : List Nat) (mech_type : Option (List Nat)) (flags : Int) :
    Except SignErr (List Nat) :=
  flux_sign_wrap_as reg cfg (uid : Int) pay mech_type flags

/-! ## Unwrap -/

/-- Split a byte string at its first '.' (the strchr calls in header_decode
and payload_decode_cpy): bytes before the dot, bytes after it. -/
def strchrSplit : List Nat → Option (List Nat × List Nat)
  | [] => none
  | c :: rest =>
      if c = 46 then some ([], rest)
      else (strchrSplit rest).map (fun p => (c :: p.1, p.2))

theorem strchrSplit_append (xs ys : List Nat) (h : 46 ∉ xs) :
    strchrSplit (xs ++ 46 :: ys) = some (xs, ys) := by
  induction xs with
  | nil => simp [strchrSplit]
  | cons a t ih =>
      have ha : a ≠ 46 := fun e => h (by simp [e])
      simp [strchrSplit, ha, ih (fun hx => h (by simp [hx]))]

theorem strchrSplit_eq (l x y : List Nat) (h : strchrSplit l = some (x, y)) :
    l = x ++ 46 :: y := by
  induction l generalizing x y with
  | nil => simp [strchrSplit] at h
  | cons c rest ih =>
      simp only [strchrSplit] at h
      by_cases hc : c = 46
      · rw [if_pos hc] at h
        simp only [Option.some.injEq, Prod.mk.injEq] at h
        obtain ⟨h1, h2⟩ := h
        subst h1
        subst h2
        simp [hc]
      · rw [if_neg hc] at h
        cases hs : strchrSplit rest with
        | none => rw [hs] at h; simp at h
        | some p =>
            obtain ⟨x2, y2⟩ := p
            rw [hs] at h
            simp only [Option.map_some', Option.some.injEq, Prod.mk.injEq] at h
            obtain ⟨h1, h2⟩ := h
            subst h1
            subst h2
            simp only [List.cons_append, List.cons.injEq]
            exact ⟨trivial, ih x2 y2 hs⟩

/-- Result record of a successful unwrap: the four caller outputs of
sign_unwrap (payload pointer, payload size, mechanism name, userid). -/
structure UnwrapOut where
  payload : Option (List Nat)
  payloadsz : Int
  mech_type : List Nat
  userid : Int
deriving DecidableEq

/-- Translation of sign_unwrap (part_003 lines 401-501), the common body of
flux_sign_unwrap and flux_sign_unwrap_anymech.  Checks run in source
order: flags validity, engine init, header split and decode, version
present and equal to 1, mechanism present and known, allowed-types policy
(when check_allowed), userid present, payload decode, then the mechanism
verify hook unless NOVERIFY is set. -/
def sign_unwrap (reg : List Mech) (cfg : SignConfig) (input : List Nat)
    (flags : Int) (check_allowed : Bool) : Except SignErr UnwrapOut :=
  if ¬(flags = 0 ∨ flags = FLUX_SIGN_NOVERIFY) then .error .einval
  else if !(sign_create_ok reg cfg) then .error .einit
  else
    match strchrSplit input with
    | none => .error .einval
    | some (h64, rest1) =>
      match b64decode h64 with
      | none => .error .einval
      | some hbytes =>
        match kv_decode hbytes with
        | none => .error .einval
        | some hdr =>
          match kv_get_i64 hdr verKey with
          | none => .error .einval
          | some version =>
            if version ≠ 1 then .error .einval
            else
              match kv_get_str hdr mechKey with
              | none => .error .einval
              | some mname =>
                match lookup_mech reg mname with
                | none => .error .einval
                | some mech =>
                  if check_allowed ∧ mname ∉ cfg.allowedTypes then
                    .error .einval
                  else
                    match kv_get_i64 hdr uidKey with
                    | none => .error .einval
                    | some userid =>
                      match strchrSplit rest1 with
                      | none => .error .einval
                      | some (p64, sigbytes) =>
                        match b64decode p64 with
                        | none => .error .einval
                        | some pay =>
                          let out : UnwrapOut :=
                            ⟨if pay.length > 0 then some pay else none,
                             (pay.length : Int), mech.name, userid⟩
                          if flags ≠ FLUX_SIGN_NOVERIFY then
                            if !(mech.initOk cfg) then .error .emech
                            else if !(mech.verify hdr (h64 ++ 46 :: p64)
                                sigbytes flags) then .error .everify
                            else .ok out
                          else .ok out

/-- Translation of flux_sign_unwrap_anymech (part_003 lines 503-510): does
not enforce allowed-types. -/
def flux_sign_unwrap_anymech (reg : List Mech) (cfg : SignConfig)
    (input : List Nat) (flags : Int) : Except SignErr UnwrapOut :=
  sign_unwrap reg cfg input flags false

/-- Translation of flux_sign_unwrap (part_003 lines 512-518): enforces
allowed-types (the C wrapper passes NULL for mech_type; the model keeps the
mechanism name in the result record). -/
def flux_sign_unwrap (reg : List Mech) (cfg : SignConfig)
    (input : List Nat) (flags : Int) : Except SignErr UnwrapOut :=
  sign_unwrap reg cfg input flags true

/-! ## Concrete mechanisms

The mechanism implementations (mech_none.c, mech_munge.c, mech_curve.c) are
not among the provided sources; they are modelled from the spec.
-/

/-- Modelled from the spec: the "none" mechanism — no init or prep work,
the signature is the literal string "none", verify accepts any input whose
signature is "none". -/
def mechNone : Mech where
  name := noneName
  initOk := fun _ => true
  prep := fun h _ => some h
  sign := fun _ _ => some noneName
  verify := fun _ _ sig _ => sig == noneName

/-- Modelled from the spec: placeholder for the shared-secret (munge)
mechanism, whose hooks call an external authentication daemon; registered
for name lookup only, its hooks are never exercised below. -/
def mechMunge : Mech where
  name := mungeName
  initOk := fun _ => true
  prep := fun h _ => some h
  sign := fun _ _ => none
  verify := fun _ _ _ _ => false

/-- Modelled from the spec: placeholder for the public-key (curve)
mechanism; registered for name lookup only, its hooks are never exercised
below. -/
def mechCurve : Mech where
  name := curveName
  initOk := fun _ => true
  prep := fun h _ => some h
  sign := fun _ _ => none
  verify := fun _ _ _ _ => false

/-- Registry mirroring lookup_mech's fixed table (part_003 lines 47-56):
none, munge, curve. -/
def stdRegistry : List Mech := [mechNone, mechMunge, mechCurve]

/-- Configuration used by concrete witnesses: default and allowed type
"none", max-ttl 30. -/
def cfgNone : SignConfig := ⟨30, noneName, [noneName]⟩

/-! ## C1: wrap/unwrap round trip -/

/-- C1: for every mechanism M in the configured allowed-types, every byte
string P (including the empty string) and every userid U ≥ 0, unwrapping
the envelope produced by flux_sign_wrap_as(U, P, M) on the same host
configuration succeeds and returns exactly the payload bytes P (as NULL
payload with size 0 when P is empty), the userid U, and the mechanism name
M.  The mechanism hooks are external, so the theorem carries the spec's
mechanism contract as hypotheses: init succeeds, prep yields a well-formed
header preserving the generic fields, and verify accepts what sign
produced over the same signed bytes. -/
theorem C1_wrap_unwrap_roundtrip
    (reg : List Mech) (cfg : SignConfig) (M : List Nat) (mech : Mech)
    (U : Int) (P : List Nat) (hdr : Header) (sig : List Nat)
    (hU : 0 ≤ U)
    (hcfg : sign_create_ok reg cfg = true)
    (hM : M ∈ cfg.allowedTypes)
    (hlook : lookup_mech reg M = some mech)
    (hinit : mech.initOk cfg = true)
    (hP : ∀ b ∈ P, b < 256)
    (hprep : mech.prep (wrap_header M U) 0 = some hdr)
    (hwf : headerOk hdr)
    (hver : kv_get_i64 hdr verKey = some 1)
    (hmech : kv_get_str hdr mechKey = some M)
    (huid : kv_get_i64 hdr uidKey = some U)
    (hsig : mech.sign (b64encode (kv_encode hdr) ++ 46 :: b64encode P) 0 =
      some sig)
    (hverify : mech.verify hdr (b64encode (kv_encode hdr) ++ 46 :: b64encode P)
      sig 0 = true) :
    ∃ env, flux_sign_wrap_as reg cfg U P (some M) 0 = .ok env ∧
      flux_sign_unwrap reg cfg env 0 =
        .ok ⟨if P.length > 0 then some P else none, (P.length : Int), M, U⟩ := by
  have hname : mech.name = M := lookup_mech_name reg M mech hlook
  have hU2 : ¬(U < 0) := not_lt.mpr hU
  refine ⟨(b64encode (kv_encode hdr) ++ 46 :: b64encode P) ++ 46 :: sig, ?_, ?_⟩
  · simp only [flux_sign_wrap_as, hU2, false_or, hcfg, Bool.not_true,
      Option.getD_some, hlook, hinit, hname, hprep, hsig]
    simp
  · have hA : 46 ∉ b64encode (kv_encode hdr) := b64encode_no_dot _
    have hB : 46 ∉ b64encode P := b64encode_no_dot _
    have hsplit1 : strchrSplit
        ((b64encode (kv_encode hdr) ++ 46 :: b64encode P) ++ 46 :: sig) =
        some (b64encode (kv_encode hdr), b64encode P ++ 46 :: sig) := by
      rw [List.append_assoc, List.cons_append]
      exact strchrSplit_append _ _ hA
    have hsplit2 : strchrSplit (b64encode P ++ 46 :: sig) =
        some (b64encode P, sig) := strchrSplit_append _ _ hB
    have hdec1 : b64decode (b64encode (kv_encode hdr)) =
        some (kv_encode hdr) := b64decode_b64encode _ (kv_encode_bytes hdr hwf)
    have hdec2 : b64decode (b64encode P) = some P := b64decode_b64encode _ hP
    simp only [flux_sign_unwrap, sign_unwrap, FLUX_SIGN_NOVERIFY, hcfg,
      Bool.not_true, hsplit1, hsplit2, hdec1, hdec2,
      kv_decode_kv_encode hdr hwf, hver, hmech, hlook, huid, hinit, hverify,
      hname]
    simp [hM]

/-- Concrete instance of C1's statement: the "none" mechanism, payload
"hi", userid 1000, discharging every hypothesis at this input. -/
theorem C1_wrap_unwrap_roundtrip_witness :
    ∃ env, flux_sign_wrap_as stdRegistry cfgNone 1000 [104, 105]
        (some noneName) 0 = .ok env ∧
      flux_sign_unwrap stdRegistry cfgNone env 0 =
        .ok ⟨if ([104, 105] : List Nat).length > 0 then some [104, 105]
              else none,
             (([104, 105] : List Nat).length : Int), noneName, 1000⟩ :=
  C1_wrap_unwrap_roundtrip stdRegistry cfgNone noneName mechNone 1000
    [104, 105] (wrap_header noneName 1000) noneName
    (by decide) (by decide) (by decide) rfl (by decide) (by decide)
    rfl (by decide) (by decide) (by decide) (by decide) rfl (by decide)

/-! ## C2: allowed-types policy -/

/-- When the policy-free run of sign_unwrap succeeds, the policy-enforcing
run returns the same result if the envelope's mechanism is allowed and
EINVAL otherwise; all other checks are identical. -/
theorem sign_unwrap_allowed_filter
    (reg : List Mech) (cfg : SignConfig) (input : List Nat) (flags : Int)
    (out : UnwrapOut)
    (h : sign_unwrap reg cfg input flags false = .ok out) :
    sign_unwrap reg cfg input flags true =
      if out.mech_type ∈ cfg.allowedTypes then .ok out
      else .error .einval := by
  unfold sign_unwrap at h ⊢
  by_cases h1 : ¬(flags = 0 ∨ flags = FLUX_SIGN_NOVERIFY)
  · rw [if_pos h1] at h; simp at h
  · rw [if_neg h1] at h
    rw [if_neg h1]
    by_cases h2 : (!(sign_create_ok reg cfg)) = true
    · rw [if_pos h2] at h; simp at h
    · rw [if_neg h2] at h
      rw [if_neg h2]
      cases hs1 : strchrSplit input with
      | none => rw [hs1] at h; simp at h
      | some pr1 =>
        obtain ⟨h64, rest1⟩ := pr1
        rw [hs1] at h
        dsimp only at h ⊢
        cases hb1 : b64decode h64 with
        | none => rw [hb1] at h; simp at h
        | some hbytes =>
          rw [hb1] at h
          dsimp only at h ⊢
          cases hk : kv_decode hbytes with
          | none => rw [hk] at h; simp at h
          | some hdr =>
            rw [hk] at h
            dsimp only at h ⊢
            cases hv : kv_get_i64 hdr verKey with
            | none => rw [hv] at h; simp at h
            | some version =>
              rw [hv] at h
              dsimp only at h ⊢
              by_cases hv1 : version ≠ 1
              · rw [if_pos hv1] at h; simp at h
              · rw [if_neg hv1] at h
                rw [if_neg hv1]
                cases hm : kv_get_str hdr mechKey with
                | none => rw [hm] at h; simp at h
                | some mname =>
                  rw [hm] at h
                  dsimp only at h ⊢
                  cases hl : lookup_mech reg mname with
                  | none => rw [hl] at h; simp at h
                  | some mech =>
                    rw [hl] at h
                    dsimp only at h ⊢
                    rw [if_neg (by simp)] at h
                    cases hu : kv_get_i64 hdr uidKey with
                    | none => rw [hu] at h; simp at h
                    | some userid =>
                      rw [hu] at h
                      dsimp only at h ⊢
                      cases hs2 : strchrSplit rest1 with
                      | none => rw [hs2] at h; simp at h
                      | some pr2 =>
                        obtain ⟨p64, sigbytes⟩ := pr2
                        rw [hs2] at h
                        dsimp only at h ⊢
                        cases hb2 : b64decode p64 with
                        | none => rw [hb2] at h; simp at h
                        | some pay =>
                          rw [hb2] at h
                          dsimp only at h ⊢
                          have hmt : out.mech_type = mech.name := by
                            by_cases hf : flags ≠ FLUX_SIGN_NOVERIFY
                            · rw [if_pos hf] at h
                              by_cases hi : (!(mech.initOk cfg)) = true
                              · rw [if_pos hi] at h; simp at h
                              · rw [if_neg hi] at h
                                by_cases hvf : (!(mech.verify hdr
                                    (h64 ++ 46 :: p64) sigbytes flags)) = true
                                · rw [if_pos hvf] at h; simp at h
                                · rw [if_neg hvf] at h
                                  simp only [Except.ok.injEq] at h
                                  rw [← h]
                            · rw [if_neg hf] at h
                              simp only [Except.ok.injEq] at h
                              rw [← h]
                          have hnm : mech.name = mname :=
                            lookup_mech_name reg mname mech hl
                          by_cases hal : mname ∈ cfg.allowedTypes
                          · rw [if_neg (by simp [hal]), h,
                              if_pos (by rw [hmt, hnm]; exact hal)]
                          · rw [if_pos ⟨rfl, hal⟩,
                              if_neg (by rw [hmt, hnm]; exact hal)]

/-- C2: for every valid envelope (one that flux_sign_unwrap_anymech accepts)
whose header mechanism is a known mechanism not listed in the configured
allowed-types, flux_sign_unwrap fails with EINVAL (policy denied), while
flux_sign_unwrap_anymech accepts the same envelope and returns its payload,
mechanism name, and userid. -/
theorem C2_policy_denied_vs_anymech
    (reg : List Mech) (cfg : SignConfig) (input : List Nat) (out : UnwrapOut)
    (hok : flux_sign_unwrap_anymech reg cfg input 0 = .ok out)
    (hnot : out.mech_type ∉ cfg.allowedTypes) :
    flux_sign_unwrap reg cfg input 0 = .error .einval ∧
      flux_sign_unwrap_anymech reg cfg input 0 = .ok out := by
  have hf := sign_unwrap_allowed_filter reg cfg input 0 out hok
  exact ⟨by rw [flux_sign_unwrap, hf, if_neg hnot], hok⟩

/-- Configuration allowing only the munge mechanism, for the C2 witness. -/
def cfgMunge : SignConfig := ⟨30, mungeName, [mungeName]⟩

/-- Concrete envelope wrapped under the "none" mechanism while only munge is
allowed: used as the C2 witness input. -/
def envNoneUnderMunge : List Nat :=
  (flux_sign_wrap_as stdRegistry cfgMunge 1000 [104, 105]
    (some noneName) 0).toOption.getD []

/-- Concrete instance of C2's statement: an envelope wrapped with "none"
under a configuration whose allowed-types is ["munge"]. -/
theorem C2_policy_denied_vs_anymech_witness :
    flux_sign_unwrap stdRegistry cfgMunge envNoneUnderMunge 0 =
      .error .einval ∧
    flux_sign_unwrap_anymech stdRegistry cfgMunge envNoneUnderMunge 0 =
      .ok ⟨some [104, 105], 2, noneName, 1000⟩ :=
  C2_policy_denied_vs_anymech stdRegistry cfgMunge envNoneUnderMunge
    ⟨some [104, 105], 2, noneName, 1000⟩ (by rfl) (by decide)

/-! ## C3: NOVERIFY skips only the cryptographic check -/

/-- Claim C3's reading of unwrap with NOVERIFY, written from the claim's
words: perform the same structural validation as normal unwrap — reject an
input with fewer than two dot separators, a base64 decode error, a header
that does not parse as key/value, a version different from 1, or a missing
version/mechanism/userid field (plus the mechanism lookup and allowed-types
policy, which are part of the validation shared with normal unwrap) — and
decode the payload; skip only the mechanism's cryptographic verify call. -/
def unwrap_noverify_claim (reg : List Mech) (cfg : SignConfig)
    (input : List Nat) (check_allowed : Bool) : Except SignErr UnwrapOut :=
  if !(sign_create_ok reg cfg) then .error .einit
  else
    match strchrSplit input with
    | none => .error .einval
    | some (h64, rest1) =>
      match b64decode h64 with
      | none => .error .einval
      | some hbytes =>
        match kv_decode hbytes with
        | none => .error .einval
        | some hdr =>
          match kv_get_i64 hdr verKey with
          | none => .error .einval
          | some version =>
            if version ≠ 1 then .error .einval
            else
              match kv_get_str hdr mechKey with
              | none => .error .einval
              | some mname =>
                match lookup_mech reg mname with
                | none => .error .einval
                | some mech =>
                  if check_allowed ∧ mname ∉ cfg.allowedTypes then
                    .error .einval
                  else
                    match kv_get_i64 hdr uidKey with
                    | none => .error .einval
                    | some userid =>
                      match strchrSplit rest1 with
                      | none => .error .einval
                      | some (p64, _sigbytes) =>
                        match b64decode p64 with
                        | none => .error .einval
                        | some pay =>
                          .ok ⟨if pay.length > 0 then some pay else none,
                               (pay.length : Int), mech.name, userid⟩

theorem sign_unwrap_noverify_eq_claim (reg : List Mech) (cfg : SignConfig)
    (input : List Nat) (ca : Bool) :
    sign_unwrap reg cfg input FLUX_SIGN_NOVERIFY ca =
      unwrap_noverify_claim reg cfg input ca := by
  unfold sign_unwrap unwrap_noverify_claim
  rw [if_neg (by simp)]
  by_cases h2 : (!(sign_create_ok reg cfg)) = true
  · rw [if_pos h2, if_pos h2]
  · rw [if_neg h2, if_neg h2]
    cases hs1 : strchrSplit input with
    | none => rfl
    | some pr1 =>
      obtain ⟨h64, rest1⟩ := pr1
      dsimp only
      cases hb1 : b64decode h64 with
      | none => rfl
      | some hbytes =>
        dsimp only
        cases hk : kv_decode hbytes with
        | none => rfl
        | some hdr =>
          dsimp only
          cases hv : kv_get_i64 hdr verKey with
          | none => rfl
          | some version =>
            dsimp only
            by_cases hv1 : version ≠ 1
            · rw [if_pos hv1, if_pos hv1]
            · rw [if_neg hv1, if_neg hv1]
              cases hm : kv_get_str hdr mechKey with
              | none => rfl
              | some mname =>
                dsimp only
                cases hl : lookup_mech reg mname with
                | none => rfl
                | some mech =>
                  dsimp only
                  by_cases hal : (ca = true) ∧ mname ∉ cfg.allowedTypes
                  · rw [if_pos hal, if_pos hal]
                  · rw [if_neg hal, if_neg hal]
                    cases hu : kv_get_i64 hdr uidKey with
                    | none => rfl
                    | some userid =>
                      dsimp only
                      cases hs2 : strchrSplit rest1 with
                      | none => rfl
                      | some pr2 =>
                        obtain ⟨p64, sigbytes⟩ := pr2
                        dsimp only
                        cases hb2 : b64decode p64 with
                        | none => rfl
                        | some pay =>
                          dsimp only
                          rw [if_neg (by simp)]

theorem sign_unwrap_noverify_of_ok (reg : List Mech) (cfg : SignConfig)
    (input : List Nat) (ca : Bool) (out : UnwrapOut)
    (h : sign_unwrap reg cfg input 0 ca = .ok out) :
    sign_unwrap reg cfg input FLUX_SIGN_NOVERIFY ca = .ok out := by
  unfold sign_unwrap at h ⊢
  rw [if_neg (by simp)] at h
  rw [if_neg (by simp)]
  by_cases h2 : (!(sign_create_ok reg cfg)) = true
  · rw [if_pos h2] at h; simp at h
  · rw [if_neg h2] at h
    rw [if_neg h2]
    cases hs1 : strchrSplit input with
    | none => rw [hs1] at h; simp at h
    | some pr1 =>
      obtain ⟨h64, rest1⟩ := pr1
      rw [hs1] at h
      dsimp only at h ⊢
      cases hb1 : b64decode h64 with
      | none => rw [hb1] at h; simp at h
      | some hbytes =>
        rw [hb1] at h
        dsimp only at h ⊢
        cases hk : kv_decode hbytes with
        | none => rw [hk] at h; simp at h
        | some hdr =>
          rw [hk] at h
          dsimp only at h ⊢
          cases hv : kv_get_i64 hdr verKey with
          | none => rw [hv] at h; simp at h
          | some version =>
            rw [hv] at h
            dsimp only at h ⊢
            by_cases hv1 : version ≠ 1
            · rw [if_pos hv1] at h; simp at h
            · rw [if_neg hv1] at h
              rw [if_neg hv1]
              cases hm : kv_get_str hdr mechKey with
              | none => rw [hm] at h; simp at h
              | some mname =>
                rw [hm] at h
                dsimp only at h ⊢
                cases hl : lookup_mech reg mname with
                | none => rw [hl] at h; simp at h
                | some mech =>
                  rw [hl] at h
                  dsimp only at h ⊢
                  by_cases hal : (ca = true) ∧ mname ∉ cfg.allowedTypes
                  · rw [if_pos hal] at h; simp at h
                  · rw [if_neg hal] at h
                    rw [if_neg hal]
                    cases hu : kv_get_i64 hdr uidKey with
                    | none => rw [hu] at h; simp at h
                    | some userid =>
                      rw [hu] at h
                      dsimp only at h ⊢
                      cases hs2 : strchrSplit rest1 with
                      | none => rw [hs2] at h; simp at h
                      | some pr2 =>
                        obtain ⟨p64, sigbytes⟩ := pr2
                        rw [hs2] at h
                        dsimp only at h ⊢
                        cases hb2 : b64decode p64 with
                        | none => rw [hb2] at h; simp at h
                        | some pay =>
                          rw [hb2] at h
                          dsimp only at h ⊢
                          rw [if_pos (by norm_num [FLUX_SIGN_NOVERIFY])] at h
                          rw [if_neg (by simp)]
                          by_cases hi : (!(mech.initOk cfg)) = true
                          · rw [if_pos hi] at h; simp at h
                          · rw [if_neg hi] at h
                            by_cases hvf : (!(mech.verify hdr
                                (h64 ++ 46 :: p64) sigbytes 0)) = true
                            · rw [if_pos hvf] at h; simp at h
                            · rw [if_neg hvf] at h
                              exact h

theorem sign_unwrap_verify_of_noverify_error (reg : List Mech)
    (cfg : SignConfig) (input : List Nat) (ca : Bool) (e : SignErr)
    (h : sign_unwrap reg cfg input FLUX_SIGN_NOVERIFY ca = .error e) :
    sign_unwrap reg cfg input 0 ca = .error e := by
  unfold sign_unwrap at h ⊢
  rw [if_neg (by simp)] at h
  rw [if_neg (by simp)]
  by_cases h2 : (!(sign_create_ok reg cfg)) = true
  · rw [if_pos h2] at h
    rw [if_pos h2]
    exact h
  · rw [if_neg h2] at h
    rw [if_neg h2]
    cases hs1 : strchrSplit input with
    | none => rw [hs1] at h; exact h
    | some pr1 =>
      obtain ⟨h64, rest1⟩ := pr1
      rw [hs1] at h
      dsimp only at h ⊢
      cases hb1 : b64decode h64 with
      | none => rw [hb1] at h; exact h
      | some hbytes =>
        rw [hb1] at h
        dsimp only at h ⊢
        cases hk : kv_decode hbytes with
        | none => rw [hk] at h; exact h
        | some hdr =>
          rw [hk] at h
          dsimp only at h ⊢
          cases hv : kv_get_i64 hdr verKey with
          | none => rw [hv] at h; exact h
          | some version =>
            rw [hv] at h
            dsimp only at h ⊢
            by_cases hv1 : version ≠ 1
            · rw [if_pos hv1] at h
              rw [if_pos hv1]
              exact h
            · rw [if_neg hv1] at h
              rw [if_neg hv1]
              cases hm : kv_get_str hdr mechKey with
              | none => rw [hm] at h; exact h
              | some mname =>
                rw [hm] at h
                dsimp only at h ⊢
                cases hl : lookup_mech reg mname with
                | none => rw [hl] at h; exact h
                | some mech =>
                  rw [hl] at h
                  dsimp only at h ⊢
                  by_cases hal : (ca = true) ∧ mname ∉ cfg.allowedTypes
                  · rw [if_pos hal] at h
                    rw [if_pos hal]
                    exact h
                  · rw [if_neg hal] at h
                    rw [if_neg hal]
                    cases hu : kv_get_i64 hdr uidKey with
                    | none => rw [hu] at h; exact h
                    | some userid =>
                      rw [hu] at h
                      dsimp only at h ⊢
                      cases hs2 : strchrSplit rest1 with
                      | none => rw [hs2] at h; exact h
                      | some pr2 =>
                        obtain ⟨p64, sigbytes⟩ := pr2
                        rw [hs2] at h
                        dsimp only at h ⊢
                        cases hb2 : b64decode p64 with
                        | none => rw [hb2] at h; exact h
                        | some pay =>
                          rw [hb2] at h
                          dsimp only at h ⊢
                          rw [if_neg (by simp)] at h
                          simp at h

/-- C3: for every input, unwrap called with the NOVERIFY flag performs the
same structural validation as normal unwrap (it equals the claim's
structural pipeline, which rejects fewer than two dot separators, base64
decode errors, headers that do not parse as key/value, a version other
than 1, and missing version/mechanism/userid fields) and decodes the
payload; whatever normal unwrap accepts NOVERIFY accepts with the same
outputs, and every NOVERIFY failure is the same failure under normal
unwrap — the only step skipped is the mechanism's cryptographic verify. -/
theorem C3_noverify_structural (reg : List Mech) (cfg : SignConfig)
    (input : List Nat) (ca : Bool) :
    sign_unwrap reg cfg input FLUX_SIGN_NOVERIFY ca =
      unwrap_noverify_claim reg cfg input ca ∧
    (∀ out, sign_unwrap reg cfg input 0 ca = .ok out →
      sign_unwrap reg cfg input FLUX_SIGN_NOVERIFY ca = .ok out) ∧
    (∀ e, sign_unwrap reg cfg input FLUX_SIGN_NOVERIFY ca = .error e →
      sign_unwrap reg cfg input 0 ca = .error e) :=
  ⟨sign_unwrap_noverify_eq_claim reg cfg input ca,
   fun out h => sign_unwrap_noverify_of_ok reg cfg input ca out h,
   fun e h => sign_unwrap_verify_of_noverify_error reg cfg input ca e h⟩

/-- Concrete envelope wrapped with "none" under `cfgNone`, used by several
witnesses. -/
def envNoneOk : List Nat :=
  (flux_sign_wrap_as stdRegistry cfgNone 1000 [104, 105]
    (some noneName) 0).toOption.getD []

/-- Concrete instance of C3's statement: NOVERIFY equals the structural
pipeline on a malformed input (no separators), and accepts the valid
envelope the normal unwrap accepts. -/
theorem C3_noverify_structural_witness :
    sign_unwrap stdRegistry cfgNone [65] FLUX_SIGN_NOVERIFY true =
      unwrap_noverify_claim stdRegistry cfgNone [65] true ∧
    sign_unwrap stdRegistry cfgNone envNoneOk FLUX_SIGN_NOVERIFY true =
      .ok ⟨some [104, 105], 2, noneName, 1000⟩ :=
  ⟨(C3_noverify_structural stdRegistry cfgNone [65] true).1,
   (C3_noverify_structural stdRegistry cfgNone envNoneOk true).2.1
     ⟨some [104, 105], 2, noneName, 1000⟩ (by rfl)⟩

/-! ## C10: unwrap writes its outputs only on success -/

/-- Caller-supplied output locations of sign_unwrap (payload pointer,
payload size, mechanism name, userid), holding whatever values they had
before the call. -/
structure UnwrapLocs where
  payload : Option (List Nat)
  payloadsz : Int
  mech_type : List Nat
  userid : Int
deriving DecidableEq

/-- Translation of sign_unwrap's effect on its out-parameters (part_003
lines 488-497): the stores happen after every check has passed, on the
success path only. -/
def sign_unwrap_store (reg : List Mech) (cfg : SignConfig) (input : List Nat)
    (flags : Int) (check_allowed : Bool) (locs : UnwrapLocs) :
    Except SignErr Unit × UnwrapLocs :=
  match sign_unwrap reg cfg input flags check_allowed with
  | .error e => (.error e, locs)
  | .ok out => (.ok (), ⟨out.payload, out.payloadsz, out.mech_type, out.userid⟩)

/-- C10: sign_unwrap is atomic with respect to its output parameters — for
every input and flags, if unwrap fails for any reason (structural, policy,
or cryptographic), none of the caller-supplied output locations is
written; they are assigned only after every check has passed. -/
theorem C10_unwrap_atomic (reg : List Mech) (cfg : SignConfig)
    (input : List Nat) (flags : Int) (ca : Bool) (locs : UnwrapLocs)
    (e : SignErr)
    (h : (sign_unwrap_store reg cfg input flags ca locs).1 = .error e) :
    (sign_unwrap_store reg cfg input flags ca locs).2 = locs := by
  unfold sign_unwrap_store at h ⊢
  cases hs : sign_unwrap reg cfg input flags ca with
  | error e2 => rfl
  | ok out => rw [hs] at h; simp at h

/-- Concrete instance of C10's statement: a structurally invalid input (no
dot separator) fails with EINVAL and leaves arbitrary prior location
contents untouched. -/
theorem C10_unwrap_atomic_witness :
    (sign_unwrap_store stdRegistry cfgNone [65] 0 true
      ⟨some [9], 7, [1], 5⟩).1 = .error .einval ∧
    (sign_unwrap_store stdRegistry cfgNone [65] 0 true
      ⟨some [9], 7, [1], 5⟩).2 = ⟨some [9], 7, [1], 5⟩ :=
  ⟨by rfl, C10_unwrap_atomic stdRegistry cfgNone [65] 0 true
    ⟨some [9], 7, [1], 5⟩ .einval (by rfl)⟩

/-! ## C4: exec failure exit code -/

/-- Linux errno EPERM. -/
def EPERM : Nat := 1

/-- Linux errno EACCES. -/
def EACCES : Nat := 13

/-- Translation of the execvp failure tail of imp_exec (part_002 lines
220-225): the conditional assignment of 126 on EPERM/EACCES is followed by
an unconditional assignment of 127 (the else is missing in the source), so
the dead first store never affects the exit code passed to imp_die. -/
def imp_exec_failure_code (err : Nat) : Nat :=
  let _exit_code : Nat := if err = EPERM ∨ err = EACCES then 126 else 0
  let exit_code : Nat := 127
  exit_code

/-- C4: the claim says the child exits 126 when execvp fails with EPERM or
EACCES and 127 otherwise; in the code the 126 assignment is immediately
overwritten by 127 (missing else), so even for EPERM/EACCES the process
exits 127, contradicting the claim and the spec's stated 126/127 split. -/
theorem C4_exec_failure_code_bug :
    imp_exec_failure_code EPERM = 127 ∧
    imp_exec_failure_code EACCES = 127 ∧
    imp_exec_failure_code EACCES ≠ 126 := by
  decide

/-! ## C5: signal forwarding to a negative target -/

/-- Translation of fwd_signal (part_002 lines 228-232): the handler calls
kill(imp_child, signal) only when the recorded target is positive.  The
result is the kill action performed, `none` when no signal is sent. -/
def fwd_signal (imp_child : Int) (signal : Nat) : Option (Int × Nat) :=
  if imp_child > 0 then some (imp_child, signal) else none

/-- C5: the claim (and the comment on imp_set_signal_child in the in-tree
header, part_002 lines 561-564, which says the target may be less than -1
so that the process group -pid is signaled) requires a negative recorded
target to be treated transparently; the handler's guard imp_child > 0
instead drops the signal: with recorded target -1234 and SIGTERM (15) no
kill is performed, while a positive target is signaled. -/
theorem C5_fwd_signal_negative_bug :
    fwd_signal (-1234) 15 = none ∧ fwd_signal 1234 15 = some (1234, 15) := by
  decide

/-! ## C6: cgroup hierarchy discovery -/

/-- Filesystem magic from linux/magic.h (cgroup.c lines 31-39). -/
def TMPFS_MAGIC : Int := 0x01021994

/-- Legacy cgroup v1 filesystem magic. -/
def CGROUP_SUPER_MAGIC : Int := 0x27e0eb

/-- Unified cgroup v2 filesystem magic. -/
def CGROUP2_SUPER_MAGIC : Int := 0x63677270

/-- Filesystem environment: the statfs f_type per path, `none` when statfs
fails. -/
structure FsEnv where
  statfs : String → Option Int

/-- Translation of cgroup_init_mount_dir_and_type (cgroup.c lines 124-175):
returns the chosen mount dir and the unified flag, `none` on failure.  The
third test reads fs.f_type as left by the statfs of /sys/fs/cgroup/unified,
because the struct is reused without another statfs of /sys/fs/cgroup. -/
def cgroup_init_mount_dir_and_type (env : FsEnv) : Option (String × Bool) :=
  match env.statfs "/sys/fs/cgroup" with
  | none => none
  | some t1 =>
    if t1 = CGROUP2_SUPER_MAGIC then some ("/sys/fs/cgroup", true)
    else
      match env.statfs "/sys/fs/cgroup/unified" with
      | none => none
      | some t2 =>
        if t2 = CGROUP2_SUPER_MAGIC then some ("/sys/fs/cgroup/unified", true)
        else if t2 = TMPFS_MAGIC then
          match env.statfs "/sys/fs/cgroup/systemd" with
          | some t3 =>
              if t3 = CGROUP_SUPER_MAGIC then
                some ("/sys/fs/cgroup/systemd", false)
              else none
          | none => none
        else none

/-- Claim C6's decision order, written from the claim's words: the third
step applies the TMPFS test to /sys/fs/cgroup itself ("whenever
/sys/fs/cgroup is a TMPFS_MAGIC mount, /sys/fs/cgroup/systemd is
tried"). -/
def c6_claimed_discovery (env : FsEnv) : Option (String × Bool) :=
  if env.statfs "/sys/fs/cgroup" = some CGROUP2_SUPER_MAGIC then
    some ("/sys/fs/cgroup", true)
  else if env.statfs "/sys/fs/cgroup/unified" = some CGROUP2_SUPER_MAGIC then
    some ("/sys/fs/cgroup/unified", true)
  else if env.statfs "/sys/fs/cgroup" = some TMPFS_MAGIC then
    match env.statfs "/sys/fs/cgroup/systemd" with
    | some t3 =>
        if t3 = CGROUP_SUPER_MAGIC then some ("/sys/fs/cgroup/systemd", false)
        else none
    | none => none
  else none

/-- Environment separating the claim from the code: /sys/fs/cgroup is
tmpfs, /sys/fs/cgroup/unified does not exist (statfs fails), and
/sys/fs/cgroup/systemd is a legacy cgroup v1 mount. -/
def c6CounterEnv : FsEnv :=
  ⟨fun p =>
    if p = "/sys/fs/cgroup" then some TMPFS_MAGIC
    else if p = "/sys/fs/cgroup/systemd" then some CGROUP_SUPER_MAGIC
    else none⟩

/-- C6 counterexample: on `c6CounterEnv` the claim's decision order chooses
the legacy systemd hierarchy (not unified), but the code returns failure,
because its TMPFS test inspects the statfs result of
/sys/fs/cgroup/unified, which failed. -/
theorem C6_discovery_counterexample :
    cgroup_init_mount_dir_and_type c6CounterEnv = none ∧
    c6_claimed_discovery c6CounterEnv = some ("/sys/fs/cgroup/systemd", false) ∧
    cgroup_init_mount_dir_and_type c6CounterEnv ≠
      c6_claimed_discovery c6CounterEnv := by
  refine ⟨rfl, rfl, by decide⟩

/-- C6 amended: discovery follows the claimed order except that the TMPFS
test is applied to the statfs result of /sys/fs/cgroup/unified (not of
/sys/fs/cgroup), and discovery fails whenever the statfs of /sys/fs/cgroup
or of /sys/fs/cgroup/unified fails. -/
theorem C6_discovery_amended (env : FsEnv) :
    cgroup_init_mount_dir_and_type env =
      if env.statfs "/sys/fs/cgroup" = none then none
      else if env.statfs "/sys/fs/cgroup" = some CGROUP2_SUPER_MAGIC then
        some ("/sys/fs/cgroup", true)
      else if env.statfs "/sys/fs/cgroup/unified" = none then none
      else if env.statfs "/sys/fs/cgroup/unified" =
          some CGROUP2_SUPER_MAGIC then
        some ("/sys/fs/cgroup/unified", true)
      else if env.statfs "/sys/fs/cgroup/unified" = some TMPFS_MAGIC then
        (if env.statfs "/sys/fs/cgroup/systemd" = some CGROUP_SUPER_MAGIC then
          some ("/sys/fs/cgroup/systemd", false)
        else none)
      else none := by
  unfold cgroup_init_mount_dir_and_type
  cases h1 : env.statfs "/sys/fs/cgroup" with
  | none => simp
  | some t1 =>
    by_cases e1 : t1 = CGROUP2_SUPER_MAGIC
    · simp [e1]
    · cases h2 : env.statfs "/sys/fs/cgroup/unified" with
      | none => simp [e1]
      | some t2 =>
        by_cases e2 : t2 = CGROUP2_SUPER_MAGIC
        · simp [e1, e2]
        · by_cases e3 : t2 = TMPFS_MAGIC
          · cases h3 : env.statfs "/sys/fs/cgroup/systemd" with
            | none => simp [e1, e2, e3]
            | some t3 =>
              by_cases e4 : t3 = CGROUP_SUPER_MAGIC
              · simp [e1, e2, e3, e4]
              · simp [e1, e2, e3, e4]
          · simp [e1, e2, e3]

/-! ## C7: cgroup_kill -/

/-- Translation of the fscanf loop of cgroup_kill (cgroup.c lines 222-235):
walk the pids parsed from cgroup.procs; skip the current pid; call kill on
every other pid, counting successes and recording whether any send failed;
also record, in order, the pids to which a signal was sent. -/
def cgroup_kill_loop (kills : Nat → Nat → Bool) (cur : Nat) (sig : Nat) :
    List Nat → Nat → Bool → List Nat → (Nat × Bool × List Nat)
  | [], count, failed, attempted => (count, failed, attempted)
  | p :: rest, count, failed, attempted =>
    if p = cur then cgroup_kill_loop kills cur sig rest count failed attempted
    else if kills p sig then
      cgroup_kill_loop kills cur sig rest (count + 1) failed (attempted ++ [p])
    else cgroup_kill_loop kills cur sig rest count true (attempted ++ [p])

/-- Translation of cgroup_kill (cgroup.c lines 206-242), over the parsed
pid list of cgroup.procs; `kills p s` says whether kill(p, s) succeeds.
Returns the pids signaled and the return value: the count of successful
sends, or -1 when none succeeded and at least one send failed. -/
def cgroup_kill (kills : Nat → Nat → Bool) (cur : Nat) (sig : Nat)
    (pids : List Nat) : List Nat × Int :=
  let r := cgroup_kill_loop kills cur sig pids 0 false []
  (r.2.2, if r.2.1 = true ∧ r.1 = 0 then -1 else (r.1 : Int))

theorem cgroup_kill_loop_spec (kills : Nat → Nat → Bool) (cur sig : Nat) :
    ∀ (pids : List Nat) (count : Nat) (failed : Bool) (attempted : List Nat),
      cgroup_kill_loop kills cur sig pids count failed attempted =
        (count + (pids.filter (fun p => p != cur)).countP
            (fun p => kills p sig),
         failed || (pids.filter (fun p => p != cur)).any
            (fun p => !(kills p sig)),
         attempted ++ pids.filter (fun p => p != cur)) := by
  intro pids
  induction pids with
  | nil => intro c f a; simp [cgroup_kill_loop]
  | cons p rest ih =>
      intro c f a
      by_cases hp : p = cur
      · simp [cgroup_kill_loop, hp, ih]
      · by_cases hk : kills p sig = true
        · simp only [cgroup_kill_loop, if_neg hp, hk, if_true, ih,
            List.filter_cons]
          simp [hp, hk, List.countP_cons]
          omega
        · have hk2 : kills p sig = false := by
            revert hk; cases kills p sig <;> simp
          simp only [cgroup_kill_loop, if_neg hp, hk2, ih, List.filter_cons]
          simp [hp, hk2, List.countP_cons]

/-- C7: cgroup_kill sends sig to each listed pid other than the calling
process's own pid, returns the number of pids successfully signaled, and
returns -1 exactly when no signal was successfully sent and at least one
send failed. -/
theorem C7_cgroup_kill_spec (kills : Nat → Nat → Bool) (cur sig : Nat)
    (pids : List Nat) :
    (cgroup_kill kills cur sig pids).1 =
      pids.filter (fun p => p != cur) ∧
    (cgroup_kill kills cur sig pids).2 =
      (if (pids.filter (fun p => p != cur)).countP (fun p => kills p sig) = 0
          ∧ (pids.filter (fun p => p != cur)).any
              (fun p => !(kills p sig)) = true
        then -1
        else ((pids.filter (fun p => p != cur)).countP
          (fun p => kills p sig) : Int)) := by
  unfold cgroup_kill
  rw [cgroup_kill_loop_spec]
  constructor
  · simp
  · simp only [Nat.zero_add, Bool.false_or, List.nil_append]
    by_cases h1 : (pids.filter (fun p => p != cur)).countP
        (fun p => kills p sig) = 0
    · by_cases h2 : (pids.filter (fun p => p != cur)).any
          (fun p => !(kills p sig)) = true
      · rw [if_pos ⟨h2, h1⟩, if_pos ⟨h1, h2⟩]
      · rw [if_neg (fun hc => h2 hc.1), if_neg (fun hc => h2 hc.2)]
    · rw [if_neg (fun hc => h1 hc.2), if_neg (fun hc => h1 hc.1)]

/-! ## C8: max-ttl validation -/

/-- C8: with the other configuration fields held valid, sign engine
initialization succeeds exactly when max-ttl is positive or the -100
sentinel: it fails for every zero or negative value other than -100, and
every positive value passes the check. -/
theorem C8_max_ttl_iff (t : Int) :
    sign_create_ok stdRegistry ⟨t, noneName, [noneName]⟩ = true ↔
      (0 < t ∨ t = -100) := by
  unfold sign_create_ok
  dsimp only
  by_cases h : t ≤ 0 ∧ t ≠ -100
  · rw [if_pos h]
    simp only [Bool.false_eq_true, false_iff]
    omega
  · rw [if_neg h]
    rw [show (!validate_mech_array stdRegistry [noneName]) = false from rfl]
    rw [show (!(lookup_mech stdRegistry noneName).isSome) = false from rfl]
    simp only [Bool.false_eq_true, if_false]
    constructor
    · intro _; omega
    · intro _; trivial

/-! ## C9: the sign CLI -/

/-- Translation of the read loop of read_all (t/src/sign.c lines 44-56)
with greedy reads: each read returns min(space left, bytes remaining).
State: bytes read so far, unconsumed input; result adds the last read's
return value.  Fuel bounds the iteration count. -/
def read_all_go (bufsz : Nat) : Nat → List Nat → List Nat →
    (List Nat × List Nat × Nat)
  | 0, buf, rest => (buf, rest, 0)
  | fuel + 1, buf, rest =>
    let n := min (bufsz - buf.length) rest.length
    let buf2 := buf ++ rest.take n
    let rest2 := rest.drop n
    if 0 < n ∧ buf2.length < bufsz then read_all_go bufsz fuel buf2 rest2
    else (buf2, rest2, n)

/-- Translation of read_all (t/src/sign.c lines 44-56): dies ("input
buffer exceeded") exactly when the loop ends with n > 0, i.e. the buffer
filled before end of input was seen. -/
def read_all (bufsz : Nat) (stdin : List Nat) : Except Unit (List Nat) :=
  let r := read_all_go bufsz (stdin.length + 1) [] stdin
  if 0 < r.2.2 then .error () else .ok r.1

theorem read_all_go_full (stdin : List Nat) (f : Nat)
    (h : 1024 ≤ stdin.length) :
    read_all_go 1024 (f + 1) [] stdin =
      (stdin.take 1024, stdin.drop 1024, 1024) := by
  simp only [read_all_go, List.length_nil, Nat.sub_zero]
  have hm : min 1024 stdin.length = 1024 := by omega
  rw [hm]
  have hc : ¬(0 < 1024 ∧ (([] : List Nat) ++ stdin.take 1024).length < 1024) := by
    simp [List.length_take]
    omega
  rw [if_neg hc]
  simp

theorem read_all_go_small (stdin : List Nat) (h : stdin.length < 1024) :
    read_all_go 1024 (stdin.length + 1) [] stdin = (stdin, [], 0) := by
  cases stdin with
  | nil => rfl
  | cons a rest =>
      simp only [List.length_cons] at h
      simp only [read_all_go, List.length_nil, Nat.sub_zero]
      have hm : min 1024 (a :: rest).length = rest.length + 1 := by
        simp only [List.length_cons]
        omega
      rw [hm]
      have hlen : (([] : List Nat) ++
          (a :: rest).take (rest.length + 1)).length = rest.length + 1 := by
        simp only [List.nil_append, List.length_take, List.length_cons]
        omega
      rw [if_pos ⟨by omega, by rw [hlen]; omega⟩]
      have htake : (a :: rest).take (rest.length + 1) = a :: rest := by
        rw [show rest.length + 1 = (a :: rest).length from rfl,
          List.take_length]
      have hdrop : (a :: rest).drop (rest.length + 1) = [] := by
        rw [show rest.length + 1 = (a :: rest).length from rfl,
          List.drop_length]
      rw [htake, hdrop]
      simp only [List.nil_append, read_all_go, List.length_nil,
        Nat.min_zero]
      simp

theorem read_all_spec (stdin : List Nat) :
    read_all 1024 stdin =
      if 1024 ≤ stdin.length then .error () else .ok stdin := by
  unfold read_all
  by_cases h : 1024 ≤ stdin.length
  · rw [read_all_go_full stdin stdin.length h, if_pos h]
    rfl
  · have h2 : stdin.length < 1024 := by omega
    rw [read_all_go_small stdin h2, if_neg h]
    rfl

/-- Translation of the sign CLI main (t/src/sign.c lines 58-83): read up
to the 1024-byte stack buffer from stdin, wrap with the default mechanism
under the caller's real uid, print the envelope line.  Result: exit code
and the stdout line, `none` when nothing is printed (die writes to
stderr and exits 1). -/
def sign_cli_main (reg : List Mech) (cfg : SignConfig) (uid : Nat)
    (stdin : List Nat) : Nat × Option (List Nat) :=
  match read_all 1024 stdin with
  | .error _ => (1, none)
  | .ok buf =>
    match flux_sign_wrap reg cfg uid buf none 0 with
    | .error _ => (1, none)
    | .ok env => (0, some env)

/-- C9 counterexample: an input of exactly 1024 bytes is "at most 1024
bytes", yet the CLI exits 1 with "input buffer exceeded" and prints
nothing: the read loop can only leave a full buffer with n > 0. -/
theorem C9_sign_cli_1024_counterexample :
    sign_cli_main stdRegistry cfgNone 1000 (List.replicate 1024 104) =
      (1, none) := by
  unfold sign_cli_main
  rw [read_all_spec]
  have hrep : (1024 : Nat) ≤ (List.replicate 1024 104).length := by
    rw [List.length_replicate]
  rw [if_pos hrep]

/-- C9 amended: the sign CLI reads the entire input, wraps it, writes one
envelope line to stdout and exits 0 for every stdin input of at most 1023
bytes (with the valid "none" configuration, wrap always succeeds); for
inputs of 1024 bytes or more it exits 1 with a diagnostic on stderr and
prints nothing. -/
theorem C9_sign_cli_amended (uid : Nat) (stdin : List Nat) :
    (stdin.length ≤ 1023 →
      ∃ env, flux_sign_wrap stdRegistry cfgNone uid stdin none 0 = .ok env ∧
        sign_cli_main stdRegistry cfgNone uid stdin = (0, some env)) ∧
    (1024 ≤ stdin.length →
      sign_cli_main stdRegistry cfgNone uid stdin = (1, none)) := by
  constructor
  · intro h
    have h0 : ¬((uid : Int) < 0 ∨ (0 : Int) ≠ 0) := by omega
    have hwrap : flux_sign_wrap stdRegistry cfgNone uid stdin none 0 =
        .ok ((b64encode (kv_encode (wrap_header noneName (uid : Int))) ++
          46 :: b64encode stdin) ++ 46 :: noneName) := by
      unfold flux_sign_wrap flux_sign_wrap_as
      rw [if_neg h0]
      rfl
    refine ⟨_, hwrap, ?_⟩
    unfold sign_cli_main
    rw [read_all_spec, if_neg (by omega)]
    dsimp only
    rw [hwrap]
  · intro h
    unfold sign_cli_main
    rw [read_all_spec, if_pos h]

/-- Concrete instance of C9's amended statement: a 2-byte input succeeds
with exit 0 and one envelope line; a 1024-byte input exits 1. -/
theorem C9_sign_cli_amended_witness :
    (∃ env, flux_sign_wrap stdRegistry cfgNone 1000 [104, 105] none 0 =
        .ok env ∧
      sign_cli_main stdRegistry cfgNone 1000 [104, 105] = (0, some env)) ∧
    sign_cli_main stdRegistry cfgNone 1000 (List.replicate 1024 104) =
      (1, none) :=
  ⟨(C9_sign_cli_amended 1000 [104, 105]).1 (by decide),
   (C9_sign_cli_amended 1000 (List.replicate 1024 104)).2
     (by rw [List.length_replicate])⟩

end FluxSec
